import Mathlib

/-!
Shallow embedding of `RPS_TOURNAMENT/app.py`: a single-process
rock-paper-scissors tournament tracker.  Python dicts keyed by player name
are modelled as insertion-ordered lists of `PlayerStats` (each record's
`name` field is its key); the module-level `LEADERBOARD` and
`CURRENT_MATCH` globals are threaded explicitly through every handler as
an `AppState`.  A handler returns the new global state together with an
`ApiResult`: `ok` models a `jsonify({"ok": True, ...})` response, `fail`
models a `jsonify({"ok": False, "error": ...})` response, and `raised`
models a Python exception that the handler does not catch (surfaced by
Flask as an HTTP 500, not as a structured JSON failure).
-/

deriving instance DecidableEq for Except

namespace RPS

/-- `PlayerStats` dataclass: cumulative statistics for one player. -/
structure PlayerStats where
  name : String
  score : Nat := 0
  wins : Nat := 0
  losses : Nat := 0
  ties : Nat := 0
  games_played : Nat := 0
deriving Repr, DecidableEq

/-- One entry of `CURRENT_MATCH["round_history"]`. -/
structure RoundRecord where
  round : Nat
  p1_move : String
  p2_move : String
  round_winner : Option String
deriving Repr, DecidableEq

/-- The `CURRENT_MATCH` dict. -/
structure MatchState where
  active : Bool
  round : Nat
  max_rounds : Nat
  p1 : Option String
  p2 : Option String
  p1_round_wins : Nat
  p2_round_wins : Nat
  round_history : List RoundRecord
  locked_winner_as_p1 : Bool
deriving Repr, DecidableEq

/-- The whole mutable global state: `LEADERBOARD` (insertion-ordered dict
as a list) plus `CURRENT_MATCH`. -/
structure AppState where
  leaderboard : List PlayerStats
  cur : MatchState
deriving Repr, DecidableEq

/-- Result of one API handler call. -/
inductive ApiResult (α : Type) where
  | ok : α → ApiResult α
  | fail : String → ApiResult α
  | raised : String → ApiResult α
deriving Repr, DecidableEq

/-- The initial values of the module-level globals. -/
def init_state : AppState :=
  { leaderboard := []
    cur := { active := false, round := 0, max_rounds := 10, p1 := none, p2 := none,
             p1_round_wins := 0, p2_round_wins := 0, round_history := [],
             locked_winner_as_p1 := false } }

/-- `MOVES = ("rock", "paper", "scissors")`. -/
def MOVES : List String := ["rock", "paper", "scissors"]

/-- Single pass of Python's `str.split()` (no argument): `acc` holds the
(reversed) characters of the word currently being read. -/
def pyWordsAux : List Char → List Char → List (List Char)
  | [], acc => if acc = [] then [] else [acc.reverse]
  | c :: cs, acc =>
    if c.isWhitespace then
      if acc = [] then pyWordsAux cs [] else acc.reverse :: pyWordsAux cs []
    else
      pyWordsAux cs (c :: acc)

/-- Python's `str.split()` (no argument): split on runs of whitespace,
discarding empty pieces, on the underlying character list. -/
def pyWords (l : List Char) : List (List Char) :=
  pyWordsAux l []

/-- `" ".join(words)` on character lists. -/
def joinWords : List (List Char) → List Char
  | [] => []
  | [w] => w
  | w :: ws => w ++ ' ' :: joinWords ws

/-- `normalize_name`: `" ".join((name or "").strip().split())`.
The `.strip()` is subsumed by `.split()`, which already discards the
empty pieces produced by leading/trailing whitespace. -/
def normalize_name (name : String) : String :=
  ⟨joinWords (pyWords name.data)⟩

/-- A freshly created `PlayerStats(name=name)`: every counter zero. -/
def freshStats (name : String) : PlayerStats :=
  { name := name }

/-- `ensure_player`: get-or-create by normalized name; raises
`ValueError("Player name cannot be empty.")` on an empty normalized
name.  Returns the found/created record and the updated leaderboard
(dict insertion appends at the end). -/
def ensure_player (lb : List PlayerStats) (name : String) :
    Except String (PlayerStats × List PlayerStats) :=
  let n := normalize_name name
  if n = "" then
    .error "Player name cannot be empty."
  else
    match lb.find? (fun p => p.name == n) with
    | some p => .ok (p, lb)
    | none => .ok (freshStats n, lb ++ [freshStats n])

/-- Python's `str.strip()` on the character list: drop leading and
trailing whitespace. -/
def pyStrip (l : List Char) : List Char :=
  ((l.dropWhile Char.isWhitespace).reverse.dropWhile Char.isWhitespace).reverse

/-- `(move or "").strip().lower()` applied to each submitted move inside
`rps_result`. -/
def norm_move (m : String) : String :=
  ⟨(pyStrip m.data).map Char.toLower⟩

/-- The `beats` dict: `{"rock": "scissors", "paper": "rock", "scissors": "paper"}`. -/
def beats : List (String × String) :=
  [("rock", "scissors"), ("paper", "rock"), ("scissors", "paper")]

/-- `rps_result`: `.ok 1` for player-1 win, `.ok (-1)` for player-2 win,
`.ok 0` for a tie; raises `ValueError` when either normalized move is
outside `MOVES`. -/
def rps_result (move1 move2 : String) : Except String Int :=
  let m1 := norm_move move1
  let m2 := norm_move move2
  if m1 ∉ MOVES ∨ m2 ∉ MOVES then
    .error "Moves must be rock, paper, or scissors."
  else if m1 = m2 then
    .ok 0
  else if beats.lookup m1 = some m2 then
    .ok 1
  else
    .ok (-1)

/-- `current_players()`. -/
def current_players (cm : MatchState) : Option String × Option String :=
  (cm.p1, cm.p2)

/-- `match_winner()`: overall winner once all rounds are played. -/
def match_winner (cm : MatchState) : Option String :=
  if cm.round < cm.max_rounds then none
  else if cm.p1_round_wins > cm.p2_round_wins then cm.p1
  else if cm.p2_round_wins > cm.p1_round_wins then cm.p2
  else none

/-- The dict produced by `match_summary()`. -/
structure MatchSummary where
  active : Bool
  round : Nat
  max_rounds : Nat
  p1 : Option String
  p2 : Option String
  p1_round_wins : Nat
  p2_round_wins : Nat
  winner : Option String
  overall_tie : Bool
  locked_winner_as_p1 : Bool
  round_history : List RoundRecord
deriving Repr, DecidableEq

/-- `match_summary()`. -/
def match_summary (cm : MatchState) : MatchSummary :=
  let winner := match_winner cm
  { active := cm.active
    round := cm.round
    max_rounds := cm.max_rounds
    p1 := cm.p1
    p2 := cm.p2
    p1_round_wins := cm.p1_round_wins
    p2_round_wins := cm.p2_round_wins
    winner := winner
    overall_tie := cm.round == cm.max_rounds && winner.isNone
    locked_winner_as_p1 := cm.locked_winner_as_p1
    round_history := cm.round_history }

/-- The sort key of `by_score`: the Python tuple `(score, wins)`. -/
def score_key (x : PlayerStats) : Nat × Nat := (x.score, x.wins)

/-- Lexicographic `≤` on Python pairs of ints. -/
def tupLE (a b : Nat × Nat) : Bool :=
  a.1 < b.1 || (a.1 == b.1 && a.2 ≤ b.2)

/-- The two views of `leaderboard_views()`. -/
structure LeaderboardViews where
  by_name : List PlayerStats
  by_score : List PlayerStats
deriving Repr, DecidableEq

/-- `leaderboard_views()`.  Python's `sorted` is a stable sort;
`sorted(..., key=k, reverse=True)` is a stable *descending* sort (records
with equal keys retain their original relative order).  A stable sort
with respect to a total preorder has a unique result, so `List.mergeSort`
(stable) with the corresponding `le` is the exact model of both calls. -/
def leaderboard_views (lb : List PlayerStats) : LeaderboardViews :=
  { by_name := lb.mergeSort (fun a b => a.name.toLower ≤ b.name.toLower)
    by_score := lb.mergeSort (fun a b => tupLE (score_key b) (score_key a)) }

/-- In-place mutation of the dict record with the given name
(Python mutates the `PlayerStats` object held in `LEADERBOARD[name]`). -/
def update_player (lb : List PlayerStats) (name : String)
    (f : PlayerStats → PlayerStats) : List PlayerStats :=
  lb.map (fun p => if p.name == name then f p else p)

/-- `ps.score += 1; ps.wins += 1` (a round win). -/
def addWin (p : PlayerStats) : PlayerStats :=
  { p with score := p.score + 1, wins := p.wins + 1 }

/-- `ps.losses += 1`. -/
def addLoss (p : PlayerStats) : PlayerStats :=
  { p with losses := p.losses + 1 }

/-- `ps.ties += 1`. -/
def addTie (p : PlayerStats) : PlayerStats :=
  { p with ties := p.ties + 1 }

/-- `ps.games_played += 1`. -/
def addGame (p : PlayerStats) : PlayerStats :=
  { p with games_played := p.games_played + 1 }

/-- `POST /api/player/register`: the only handler with a
`try/except ValueError` — the exception becomes an `ok=false` response. -/
def api_register_player (st : AppState) (name : String) :
    AppState × ApiResult PlayerStats :=
  match ensure_player st.leaderboard name with
  | .ok (p, lb') => (⟨lb', st.cur⟩, .ok p)
  | .error e => (st, .fail e)

/-- `POST /api/game/start`. -/
def api_game_start (st : AppState) (p1_in p2_in : String) :
    AppState × ApiResult MatchSummary :=
  let p1 := normalize_name p1_in
  let p2 := normalize_name p2_in
  -- `if CURRENT_MATCH["p1"] and CURRENT_MATCH["locked_winner_as_p1"]`:
  -- truthiness of the stored p1 means "present and non-empty".
  let p1 := match st.cur.p1 with
    | some n => if n ≠ "" ∧ st.cur.locked_winner_as_p1 then n else p1
    | none => p1
  if p1 = "" ∨ p2 = "" ∨ p1 = p2 then
    (st, .fail "Invalid player names.")
  else
    match ensure_player st.leaderboard p1 with
    | .error e => (st, .raised e)
    | .ok (_, lb1) =>
      match ensure_player lb1 p2 with
      | .error e => (⟨lb1, st.cur⟩, .raised e)
      | .ok (_, lb2) =>
        let cur' := { st.cur with
          active := true, round := 0, p1 := some p1, p2 := some p2,
          p1_round_wins := 0, p2_round_wins := 0, round_history := [],
          locked_winner_as_p1 := false }
        (⟨lb2, cur'⟩, .ok (match_summary cur'))

/-- `POST /api/game/play_round`.  Note there is no `try/except` around
`rps_result`: its `ValueError` escapes the handler (`raised`), it is not
turned into an `ok=false` response. -/
def api_game_play_round (st : AppState) (p1_move p2_move : String) :
    AppState × ApiResult MatchSummary :=
  if ¬ st.cur.active then
    (st, .fail "No active match.")
  else if st.cur.round ≥ st.cur.max_rounds then
    (st, .fail "Match already finished. Start the next match.")
  else
    match rps_result p1_move p2_move with
    | .error e => (st, .raised e)
    | .ok outcome =>
      -- CURRENT_MATCH["round"] += 1 happens before the ensure_player calls,
      -- so an exception from those would leave the round already bumped.
      let cur1 := { st.cur with round := st.cur.round + 1 }
      let round_num := cur1.round
      let p1 := cur1.p1
      let p2 := cur1.p2
      match ensure_player st.leaderboard (p1.getD "") with
      | .error e => (⟨st.leaderboard, cur1⟩, .raised e)
      | .ok (_, lb1) =>
        match ensure_player lb1 (p2.getD "") with
        | .error e => (⟨lb1, cur1⟩, .raised e)
        | .ok (_, lb2) =>
          let n1 := normalize_name (p1.getD "")
          let n2 := normalize_name (p2.getD "")
          let step :
              MatchState × List PlayerStats × Option String :=
            if outcome = 1 then
              ({ cur1 with p1_round_wins := cur1.p1_round_wins + 1 },
               update_player (update_player lb2 n1 addWin) n2 addLoss, p1)
            else if outcome = -1 then
              ({ cur1 with p2_round_wins := cur1.p2_round_wins + 1 },
               update_player (update_player lb2 n2 addWin) n1 addLoss, p2)
            else
              (cur1, update_player (update_player lb2 n1 addTie) n2 addTie, none)
          let cur2 := step.1
          let lb3 := step.2.1
          let round_winner := step.2.2
          let cur3 := { cur2 with round_history :=
            cur2.round_history ++
              [{ round := round_num, p1_move := p1_move, p2_move := p2_move,
                 round_winner := round_winner }] }
          if round_num = cur3.max_rounds then
            let lb4 := update_player (update_player lb3 n1 addGame) n2 addGame
            let curF := { cur3 with active := false }
            let winner := match_winner curF
            let locked_p1 := (match winner with | none => p1 | some w => some w)
            let curF :=
              { curF with p1 := locked_p1, p2 := none, locked_winner_as_p1 := true }
            (⟨lb4, curF⟩, .ok (match_summary curF))
          else
            (⟨lb3, cur3⟩, .ok (match_summary cur3))

/-- The ordering the spec prescribes for `by_score`: stable-sort the
snapshot ascending on the `(score, wins)` key, then reverse the whole
sequence. -/
def by_score_asc_then_reverse (lb : List PlayerStats) : List PlayerStats :=
  (lb.mergeSort (fun a b => tupLE (score_key a) (score_key b))).reverse

/-- A state as left behind by a completed match: winner carried in `p1`,
`locked_winner_as_p1` set. -/
def sampleLockedState : AppState :=
  { leaderboard := []
    cur := { active := false, round := 10, max_rounds := 10, p1 := some "Alice",
             p2 := none, p1_round_wins := 6, p2_round_wins := 4,
             round_history := [], locked_winner_as_p1 := true } }

/-- A state nine rounds into a match, one `PlayRound` away from
finalization. -/
def sampleRound9State : AppState :=
  { leaderboard := [{ name := "Alice", score := 5, wins := 5, losses := 4,
                      ties := 0, games_played := 0 },
                    { name := "Bob", score := 4, wins := 4, losses := 5,
                      ties := 0, games_played := 0 }]
    cur := { active := true, round := 9, max_rounds := 10, p1 := some "Alice",
             p2 := some "Bob", p1_round_wins := 5, p2_round_wins := 4,
             round_history := List.replicate 9
               { round := 1, p1_move := "rock", p2_move := "rock",
                 round_winner := none },
             locked_winner_as_p1 := false } }

/-- The state invariant maintained by every handler. -/
def Inv (st : AppState) : Prop :=
  st.cur.round = st.cur.round_history.length ∧
  st.cur.p1_round_wins + st.cur.p2_round_wins ≤ st.cur.round ∧
  (∀ n, st.cur.p1 = some n → normalize_name n ≠ "") ∧
  (∀ n, st.cur.p2 = some n → normalize_name n ≠ "") ∧
  (st.cur.active = true → st.cur.p1.isSome ∧ st.cur.p2.isSome) ∧
  (∀ p ∈ st.leaderboard, p.score = p.wins)

/-- States reachable from the fresh server state through the API. -/
inductive Reachable : AppState → Prop where
  | init : Reachable init_state
  | register (st : AppState) (n : String) (h : Reachable st) :
      Reachable (api_register_player st n).1
  | start (st : AppState) (a b : String) (h : Reachable st) :
      Reachable (api_game_start st a b).1
  | play (st : AppState) (a b : String) (h : Reachable st) :
      Reachable (api_game_play_round st a b).1

/-- The cyclic beats-relation as the spec words it: rock beats scissors,
paper beats rock, scissors beats paper. -/
def Beats (a b : String) : Prop :=
  (a = "rock" ∧ b = "scissors") ∨ (a = "paper" ∧ b = "rock") ∨
    (a = "scissors" ∧ b = "paper")

instance (a b : String) : Decidable (Beats a b) := by
  unfold Beats; infer_instance

/-- C6: on two moves whose trimmed, lowercased forms lie in
{rock, paper, scissors}, `rps_result` returns one of the three outcomes,
tie exactly on equal normalized moves, player-1 win exactly when the
first normalized move beats the second under the cyclic relation, and
player-2 win otherwise. -/
theorem rps_result_characterization (m1 m2 : String)
    (h1 : norm_move m1 ∈ MOVES) (h2 : norm_move m2 ∈ MOVES) :
    (rps_result m1 m2 = .ok 0 ∨ rps_result m1 m2 = .ok 1 ∨
      rps_result m1 m2 = .ok (-1)) ∧
    (rps_result m1 m2 = .ok 0 ↔ norm_move m1 = norm_move m2) ∧
    (rps_result m1 m2 = .ok 1 ↔
      (norm_move m1 ≠ norm_move m2 ∧ Beats (norm_move m1) (norm_move m2))) ∧
    (rps_result m1 m2 = .ok (-1) ↔
      (norm_move m1 ≠ norm_move m2 ∧ ¬ Beats (norm_move m1) (norm_move m2))) := by
  simp only [MOVES, List.mem_cons, List.not_mem_nil, or_false] at h1 h2
  simp only [rps_result, Beats]
  rcases h1 with h1 | h1 | h1 <;> rcases h2 with h2 | h2 | h2 <;>
    rw [h1, h2] <;> decide

/-- Witness for C6: `"Rock "` vs `"paper"` normalizes into the valid set
and resolves to a player-2 win (paper beats rock). -/
theorem rps_result_characterization_witness :
    norm_move "Rock " ∈ MOVES ∧ rps_result "Rock " "paper" = .ok (-1) :=
  ⟨by decide,
    ((rps_result_characterization "Rock " "paper" (by decide) (by decide)).2.2.2).mpr
      (by decide)⟩

/-- C9: round resolution is mirrored under swapping the two moves:
first-wins maps to second-wins and ties map to ties. -/
theorem rps_result_swap (a b : String)
    (h1 : norm_move a ∈ MOVES) (h2 : norm_move b ∈ MOVES) :
    (rps_result a b = .ok 1 ↔ rps_result b a = .ok (-1)) ∧
    (rps_result a b = .ok (-1) ↔ rps_result b a = .ok 1) ∧
    (rps_result a b = .ok 0 ↔ rps_result b a = .ok 0) := by
  simp only [MOVES, List.mem_cons, List.not_mem_nil, or_false] at h1 h2
  simp only [rps_result]
  rcases h1 with h1 | h1 | h1 <;> rcases h2 with h2 | h2 | h2 <;>
    rw [h1, h2] <;> decide

/-- Witness for C9 at `("rock", "paper")`. -/
theorem rps_result_swap_witness :
    norm_move "rock" ∈ MOVES ∧
      (rps_result "rock" "paper" = .ok (-1) ↔ rps_result "paper" "rock" = .ok 1) :=
  ⟨by decide, (rps_result_swap "rock" "paper" (by decide) (by decide)).2.1⟩

/-- C8: `ensure_player` fails exactly on an empty normalized name; a
second call with an equivalently-normalizing name returns the same
record and leaves the leaderboard unchanged; creation starts every
counter at zero. -/
theorem ensure_player_spec (lb : List PlayerStats) (name name2 : String)
    (hsame : normalize_name name2 = normalize_name name) :
    ((∃ msg, ensure_player lb name = .error msg) ↔ normalize_name name = "") ∧
    (∀ p lb₁, ensure_player lb name = .ok (p, lb₁) →
      ensure_player lb₁ name2 = .ok (p, lb₁)) ∧
    (normalize_name name ≠ "" →
      lb.find? (fun q => q.name == normalize_name name) = none →
      ensure_player lb name =
        .ok (freshStats (normalize_name name),
             lb ++ [freshStats (normalize_name name)])) := by
  by_cases hn : normalize_name name = ""
  · refine ⟨⟨fun _ => hn, fun _ => ⟨"Player name cannot be empty.",
      by simp [ensure_player, hn]⟩⟩, ?_, ?_⟩
    · intro p lb₁ hok
      simp [ensure_player, hn] at hok
    · intro h; exact absurd hn h
  · refine ⟨?_, ?_, ?_⟩
    · constructor
      · rintro ⟨msg, hmsg⟩
        exfalso
        simp only [ensure_player] at hmsg
        rw [if_neg hn] at hmsg
        cases hfind : lb.find? (fun q => q.name == normalize_name name) <;>
          rw [hfind] at hmsg <;> exact Except.noConfusion hmsg
      · intro h; exact absurd h hn
    · intro p lb₁ hok
      simp only [ensure_player] at hok ⊢
      rw [if_neg hn, ] at hok
      rw [hsame, if_neg hn]
      cases hfind : lb.find? (fun q => q.name == normalize_name name) with
      | some q =>
        rw [hfind] at hok
        injection hok with h
        injection h with h1 h2
        subst h1; subst h2
        rw [hfind]
      | none =>
        rw [hfind] at hok
        injection hok with h
        injection h with h1 h2
        subst h1; subst h2
        have hfound : (lb ++ [freshStats (normalize_name name)]).find?
            (fun q => q.name == normalize_name name)
            = some (freshStats (normalize_name name)) := by
          rw [List.find?_append, hfind]
          simp [freshStats]
        rw [hfound]
    · intro _ hfind
      simp only [ensure_player]
      rw [if_neg hn, hfind]

/-- Witness for C8: registering `"Alice"` twice (second time with extra
whitespace) yields the same freshly created zero-counter record. -/
theorem ensure_player_spec_witness :
    normalize_name " Alice " = normalize_name "Alice" ∧
      ensure_player [] "Alice" = .ok (freshStats "Alice", [freshStats "Alice"]) ∧
      ensure_player [freshStats "Alice"] " Alice " =
        .ok (freshStats "Alice", [freshStats "Alice"]) :=
  ⟨by decide, by decide,
    (ensure_player_spec [] "Alice" " Alice " (by decide)).2.1
      (freshStats "Alice") [freshStats "Alice"] (by decide)⟩

/-- Evaluation of `mergeSort` on a two-element list. -/
theorem mergeSort_pair {α : Type} (a b : α) (le : α → α → Bool) :
    [a, b].mergeSort le = if le a b then [a, b] else [b, a] := by
  rw [List.mergeSort]
  by_cases h : le a b <;> simp [List.merge, h]

theorem tupLE_trans {a b c : Nat × Nat} (h1 : tupLE a b) (h2 : tupLE b c) :
    tupLE a c := by
  simp only [tupLE, Bool.or_eq_true, Bool.and_eq_true, decide_eq_true_eq,
    beq_iff_eq] at h1 h2 ⊢
  omega

theorem tupLE_total (a b : Nat × Nat) : tupLE a b || tupLE b a := by
  simp only [tupLE, Bool.or_eq_true, Bool.and_eq_true, decide_eq_true_eq,
    beq_iff_eq]
  omega

theorem tupLE_refl (a : Nat × Nat) : tupLE a a := by
  simp [tupLE]

/-- Counterexample to C2: on a snapshot of two distinct players sharing
the key `(0, 0)`, the code's `by_score` keeps the original (stable)
order, while ascending-sort-then-reverse reverses it. -/
theorem by_score_ne_asc_then_reverse :
    (leaderboard_views [freshStats "a", freshStats "b"]).by_score ≠
      by_score_asc_then_reverse [freshStats "a", freshStats "b"] := by
  have h1 : (leaderboard_views [freshStats "a", freshStats "b"]).by_score
      = [freshStats "a", freshStats "b"] := by
    simp only [leaderboard_views]
    rw [mergeSort_pair]
    simp [tupLE, score_key, freshStats]
  have h2 : by_score_asc_then_reverse [freshStats "a", freshStats "b"]
      = [freshStats "b", freshStats "a"] := by
    simp only [by_score_asc_then_reverse]
    rw [mergeSort_pair]
    simp [tupLE, score_key, freshStats]
  rw [h1, h2]
  decide

/-- C2 amended: `by_score` is the stable *descending* sort of the
snapshot by the `(score, wins)` composite key: it is a permutation of
the snapshot, sorted so that each player's key is `≥` every later
player's key, and players sharing an identical key appear in their
original snapshot order (not reversed). -/
theorem by_score_stable_descending (lb : List PlayerStats) :
    (leaderboard_views lb).by_score.Perm lb ∧
    List.Pairwise (fun a b => tupLE (score_key b) (score_key a) = true)
      (leaderboard_views lb).by_score ∧
    ∀ k : Nat × Nat,
      (leaderboard_views lb).by_score.filter (fun p => decide (score_key p = k)) =
        lb.filter (fun p => decide (score_key p = k)) := by
  have trans : ∀ a b c : PlayerStats,
      tupLE (score_key b) (score_key a) → tupLE (score_key c) (score_key b) →
        tupLE (score_key c) (score_key a) :=
    fun _ _ _ h1 h2 => tupLE_trans h2 h1
  have total : ∀ a b : PlayerStats,
      tupLE (score_key b) (score_key a) || tupLE (score_key a) (score_key b) :=
    fun a b => tupLE_total _ _
  refine ⟨List.mergeSort_perm lb _, List.sorted_mergeSort trans total lb, ?_⟩
  intro k
  set pk : PlayerStats → Bool := fun p => decide (score_key p = k) with hpk
  have hkey : ∀ p, pk p = true → score_key p = k := by
    intro p hp
    rw [hpk] at hp
    exact of_decide_eq_true hp
  have hpw : (lb.filter pk).Pairwise
      (fun a b => tupLE (score_key b) (score_key a) = true) := by
    refine List.pairwise_of_forall_mem_list ?_
    intro a ha b hb
    have hak := hkey a (List.of_mem_filter ha)
    have hbk := hkey b (List.of_mem_filter hb)
    rw [hak, hbk]
    exact tupLE_refl k
  have hsub : List.Sublist (lb.filter pk) (leaderboard_views lb).by_score :=
    List.sublist_mergeSort trans total hpw (List.filter_sublist lb)
  have hsub2 : List.Sublist ((lb.filter pk).filter pk)
      (((leaderboard_views lb).by_score).filter pk) :=
    hsub.filter pk
  rw [List.filter_eq_self.mpr (fun a ha => List.of_mem_filter (p := pk) ha)]
    at hsub2
  have hlen : (((leaderboard_views lb).by_score).filter pk).length
      = (lb.filter pk).length :=
    (List.Perm.filter pk (List.mergeSort_perm lb _)).length_eq
  exact (hsub2.eq_of_length hlen.symm).symm

/-- The only exception `ensure_player` can raise is the empty-name one. -/
theorem ensure_player_error_msg {lb : List PlayerStats} {name : String} {e : String}
    (h : ensure_player lb name = .error e) : e = "Player name cannot be empty." := by
  simp only [ensure_player] at h
  by_cases hn : normalize_name name = ""
  · rw [if_pos hn] at h
    exact (Except.error.injEq .. ▸ h).symm
  · rw [if_neg hn] at h
    cases hfind : lb.find? (fun q => q.name == normalize_name name) <;>
      rw [hfind] at h <;> exact Except.noConfusion h

/-- C1 (evaluating the code at the failing input): on an active,
unfinished match, an out-of-range move makes `api_game_play_round`
surface the `rps_result` exception unhandled — there is no
`try/except` in the handler — instead of the structured `ok=false`
failure the spec promises. -/
theorem play_round_invalid_move_raises :
    (api_game_play_round (api_game_start init_state "Alice" "Bob").1
        "lizard" "rock").2
      = .raised "Moves must be rock, paper, or scissors." ∧
    ∀ msg, (api_game_play_round (api_game_start init_state "Alice" "Bob").1
        "lizard" "rock").2 ≠ .fail msg := by
  have h : (api_game_play_round (api_game_start init_state "Alice" "Bob").1
      "lizard" "rock").2
      = .raised "Moves must be rock, paper, or scissors." := by decide
  refine ⟨h, ?_⟩
  intro msg hmsg
  rw [h] at hmsg
  exact ApiResult.noConfusion hmsg

/-- C5: a rejected `PlayRound` — no active match, match already
finished, or invalid move — returns the state unchanged: match fields
and registry statistics are exactly as before the call. -/
theorem play_round_rejected_no_mutation (st : AppState) (m1 m2 : String)
    (h : (api_game_play_round st m1 m2).2 = .fail "No active match." ∨
         (api_game_play_round st m1 m2).2
           = .fail "Match already finished. Start the next match." ∨
         (api_game_play_round st m1 m2).2
           = .raised "Moves must be rock, paper, or scissors.") :
    (api_game_play_round st m1 m2).1 = st := by
  by_cases h1 : st.cur.active = true
  · by_cases h2 : st.cur.round ≥ st.cur.max_rounds
    · simp [api_game_play_round, h1, h2]
    · cases hr : rps_result m1 m2 with
      | error e => simp [api_game_play_round, h1, h2, hr]
      | ok oc =>
        exfalso
        cases hens1 : ensure_player st.leaderboard ((st.cur.p1).getD "") with
        | error e1 =>
          have he1 := ensure_player_error_msg hens1
          simp only [api_game_play_round, h1, h2, hr, hens1, he1] at h
          simp at h
        | ok pr1 =>
          cases hens2 : ensure_player pr1.2 ((st.cur.p2).getD "") with
          | error e2 =>
            have he2 := ensure_player_error_msg hens2
            simp only [api_game_play_round, h1, h2, hr, hens1, hens2, he2] at h
            simp at h
          | ok pr2 =>
            by_cases ho1 : oc = 1
            · by_cases hfin : st.cur.round + 1 = st.cur.max_rounds <;>
                simp [api_game_play_round, h1, h2, hr, hens1, hens2, ho1,
                  hfin] at h
            · by_cases ho2 : oc = -1 <;>
                by_cases hfin : st.cur.round + 1 = st.cur.max_rounds <;>
                simp [api_game_play_round, h1, h2, hr, hens1, hens2, ho1, ho2,
                  hfin] at h
  · simp [api_game_play_round, h1]

/-- Witness for C5: playing a round with no active match is rejected
and leaves the initial state untouched. -/
theorem play_round_rejected_no_mutation_witness :
    ((api_game_play_round init_state "rock" "paper").2
        = ApiResult.fail "No active match." ∨
      (api_game_play_round init_state "rock" "paper").2
        = ApiResult.fail "Match already finished. Start the next match." ∨
      (api_game_play_round init_state "rock" "paper").2
        = ApiResult.raised "Moves must be rock, paper, or scissors.") ∧
    (api_game_play_round init_state "rock" "paper").1 = init_state :=
  ⟨Or.inl (by decide),
    play_round_rejected_no_mutation init_state "rock" "paper" (Or.inl (by decide))⟩

/-- C4: with `locked_winner_as_p1` set and a non-empty stored `p1`,
`StartMatch` replaces the caller's p1 by the carried-forward name and
takes p2 from the caller; it answers "Invalid player names." exactly
when, after the substitution, either name is empty or both are equal,
and on that failure the whole state (registry included) is unchanged. -/
theorem game_start_carry_forward (st : AppState) (p1_in p2_in : String)
    (n : String) (hp1 : st.cur.p1 = some n) (hne : n ≠ "")
    (hlock : st.cur.locked_winner_as_p1 = true) :
    ((api_game_start st p1_in p2_in).2 = .fail "Invalid player names." ↔
      (n = "" ∨ normalize_name p2_in = "" ∨ n = normalize_name p2_in)) ∧
    ((api_game_start st p1_in p2_in).2 = .fail "Invalid player names." →
      (api_game_start st p1_in p2_in).1 = st) ∧
    (∀ res, (api_game_start st p1_in p2_in).2 = .ok res →
      res.p1 = some n ∧ res.p2 = some (normalize_name p2_in)) := by
  have hcond : n ≠ "" ∧ st.cur.locked_winner_as_p1 := ⟨hne, by rw [hlock]⟩
  simp only [api_game_start, hp1]
  rw [if_pos hcond]
  by_cases hfail : n = "" ∨ normalize_name p2_in = "" ∨ n = normalize_name p2_in
  · rw [if_pos hfail]
    exact ⟨⟨fun _ => hfail, fun _ => rfl⟩, fun _ => rfl,
      fun res hres => ApiResult.noConfusion hres⟩
  · rw [if_neg hfail]
    cases hens1 : ensure_player st.leaderboard n with
    | error e =>
      exact ⟨⟨fun hc => ApiResult.noConfusion hc, fun hc => absurd hc hfail⟩,
        fun hc => ApiResult.noConfusion hc,
        fun res hres => ApiResult.noConfusion hres⟩
    | ok pr1 =>
      obtain ⟨ps1, lb1⟩ := pr1
      dsimp only
      cases hens2 : ensure_player lb1 (normalize_name p2_in) with
      | error e =>
        exact ⟨⟨fun hc => ApiResult.noConfusion hc, fun hc => absurd hc hfail⟩,
          fun hc => ApiResult.noConfusion hc,
          fun res hres => ApiResult.noConfusion hres⟩
      | ok pr2 =>
        obtain ⟨ps2, lb2⟩ := pr2
        dsimp only
        refine ⟨⟨fun hc => ApiResult.noConfusion hc, fun hc => absurd hc hfail⟩,
          fun hc => ApiResult.noConfusion hc, ?_⟩
        intro res hres
        injection hres with h
        subst h
        exact ⟨rfl, rfl⟩

/-- Witness for C4: after a completed match carried "Alice" forward,
starting with p2 = "Alice" collides with the substituted p1 and is
rejected without touching the state. -/
theorem game_start_carry_forward_witness :
    sampleLockedState.cur.p1 = some "Alice" ∧
    (api_game_start sampleLockedState "Zoe" "Alice").2
      = .fail "Invalid player names." ∧
    (api_game_start sampleLockedState "Zoe" "Alice").1 = sampleLockedState := by
  have h := game_start_carry_forward sampleLockedState "Zoe" "Alice" "Alice"
    (by decide) (by decide) (by decide)
  have hf := h.1.mpr (by decide)
  exact ⟨by decide, hf, h.2.1 hf⟩

/-- `ensure_player` on an already-registered normalized name returns the
stored record and leaves the leaderboard unchanged. -/
theorem ensure_player_found {lb : List PlayerStats} {n : String} {ps : PlayerStats}
    (hnorm : normalize_name n = n) (hne : n ≠ "")
    (hfind : lb.find? (fun q => q.name == n) = some ps) :
    ensure_player lb n = .ok (ps, lb) := by
  simp only [ensure_player, hnorm]
  rw [if_neg hne, hfind]

/-- Looking up the mutated name after `update_player` sees the mutation. -/
theorem find?_update_player_self (lb : List PlayerStats) (n : String)
    (f : PlayerStats → PlayerStats) (hf : ∀ p, (f p).name = p.name) :
    (update_player lb n f).find? (fun q => q.name == n)
      = (lb.find? (fun q => q.name == n)).map f := by
  induction lb with
  | nil => rfl
  | cons a l ih =>
    by_cases hb : (a.name == n) = true
    · have hfb : ((f a).name == n) = true := by rw [hf a]; exact hb
      simp only [update_player, List.map_cons]
      rw [if_pos hb, List.find?_cons_of_pos (p := fun q : PlayerStats => q.name == n) _ hfb,
        List.find?_cons_of_pos (p := fun q : PlayerStats => q.name == n) _ hb]
      rfl
    · simp only [update_player, List.map_cons]
      rw [if_neg hb, List.find?_cons_of_neg (p := fun q : PlayerStats => q.name == n) _ hb,
        List.find?_cons_of_neg (p := fun q : PlayerStats => q.name == n) _ hb]
      exact ih

/-- Looking up a different name after `update_player` is unaffected. -/
theorem find?_update_player_other (lb : List PlayerStats) (n m : String)
    (f : PlayerStats → PlayerStats) (hf : ∀ p, (f p).name = p.name)
    (hnm : m ≠ n) :
    (update_player lb n f).find? (fun q => q.name == m)
      = lb.find? (fun q => q.name == m) := by
  induction lb with
  | nil => rfl
  | cons a l ih =>
    by_cases hb : (a.name == n) = true
    · have ha : a.name = n := beq_iff_eq.mp hb
      have hm : ¬ ((f a).name == m) = true := by
        rw [hf a, ha]
        intro h
        exact hnm (beq_iff_eq.mp h).symm
      have hm2 : ¬ (a.name == m) = true := by
        rw [ha]
        intro h
        exact hnm (beq_iff_eq.mp h).symm
      simp only [update_player, List.map_cons]
      rw [if_pos hb, List.find?_cons_of_neg (p := fun q : PlayerStats => q.name == m) _ hm,
        List.find?_cons_of_neg (p := fun q : PlayerStats => q.name == m) _ hm2]
      exact ih
    · simp only [update_player, List.map_cons]
      rw [if_neg hb]
      by_cases hm : (a.name == m) = true
      · rw [List.find?_cons_of_pos (p := fun q : PlayerStats => q.name == m) _ hm,
          List.find?_cons_of_pos (p := fun q : PlayerStats => q.name == m) _ hm]
      · rw [List.find?_cons_of_neg (p := fun q : PlayerStats => q.name == m) _ hm,
          List.find?_cons_of_neg (p := fun q : PlayerStats => q.name == m) _ hm]
        exact ih

/-- C3: the `PlayRound` that records round number `max_rounds` finalizes
the match in the same call: the operation succeeds, both participants'
`games_played` rise by exactly 1, `active` becomes false,
`round_history` reaches length `max_rounds`, `p2` is cleared,
`locked_winner_as_p1` is set, and `p1` becomes the player with strictly
more round-wins, or the original p1 on a round-win tie. -/
theorem play_round_finalizes (st : AppState) (m1 m2 : String)
    (n1 n2 : String) (ps1 ps2 : PlayerStats) (oc : Int)
    (hact : st.cur.active = true)
    (hround : st.cur.round + 1 = st.cur.max_rounds)
    (hp1 : st.cur.p1 = some n1) (hp2 : st.cur.p2 = some n2)
    (hn1 : normalize_name n1 = n1) (hne1 : n1 ≠ "")
    (hn2 : normalize_name n2 = n2) (hne2 : n2 ≠ "")
    (hdist : n1 ≠ n2)
    (hfind1 : st.leaderboard.find? (fun q => q.name == n1) = some ps1)
    (hfind2 : st.leaderboard.find? (fun q => q.name == n2) = some ps2)
    (hist : st.cur.round_history.length = st.cur.round)
    (hrps : rps_result m1 m2 = Except.ok oc) :
    (∃ res, (api_game_play_round st m1 m2).2 = ApiResult.ok res) ∧
    (api_game_play_round st m1 m2).1.cur.active = false ∧
    (api_game_play_round st m1 m2).1.cur.round_history.length
      = st.cur.max_rounds ∧
    (api_game_play_round st m1 m2).1.cur.p2 = none ∧
    (api_game_play_round st m1 m2).1.cur.locked_winner_as_p1 = true ∧
    (api_game_play_round st m1 m2).1.cur.p1 =
      some (if (api_game_play_round st m1 m2).1.cur.p1_round_wins >
              (api_game_play_round st m1 m2).1.cur.p2_round_wins then n1
            else if (api_game_play_round st m1 m2).1.cur.p2_round_wins >
              (api_game_play_round st m1 m2).1.cur.p1_round_wins then n2
            else n1) ∧
    (∃ q1, (api_game_play_round st m1 m2).1.leaderboard.find?
        (fun q => q.name == n1) = some q1 ∧
      q1.games_played = ps1.games_played + 1) ∧
    (∃ q2, (api_game_play_round st m1 m2).1.leaderboard.find?
        (fun q => q.name == n2) = some q2 ∧
      q2.games_played = ps2.games_played + 1) := by
  have hlt : ¬ st.cur.round ≥ st.cur.max_rounds := by omega
  have hens1 : ensure_player st.leaderboard n1 = .ok (ps1, st.leaderboard) :=
    ensure_player_found hn1 hne1 hfind1
  have hens2 : ensure_player st.leaderboard n2 = .ok (ps2, st.leaderboard) :=
    ensure_player_found hn2 hne2 hfind2
  have hq1 : ∀ (lb : List PlayerStats) (q : PlayerStats),
      lb.find? (fun r => r.name == n1) = some q →
      (update_player (update_player lb n1 addGame) n2 addGame).find?
        (fun r => r.name == n1) = some (addGame q) := by
    intro lb q hlb
    rw [find?_update_player_other _ n2 n1 addGame (fun p => rfl) hdist,
      find?_update_player_self _ n1 addGame (fun p => rfl), hlb]
    rfl
  have hq2 : ∀ (lb : List PlayerStats) (q : PlayerStats),
      lb.find? (fun r => r.name == n2) = some q →
      (update_player (update_player lb n1 addGame) n2 addGame).find?
        (fun r => r.name == n2) = some (addGame q) := by
    intro lb q hlb
    rw [find?_update_player_self _ n2 addGame (fun p => rfl),
      find?_update_player_other _ n1 n2 addGame (fun p => rfl)
        (fun h => hdist h.symm), hlb]
    rfl
  have hwinner : ∀ rh : List RoundRecord, ∀ w1 w2 : Nat, ∀ lck : Bool,
      (match match_winner
          { active := false, round := st.cur.max_rounds,
            max_rounds := st.cur.max_rounds, p1 := some n1, p2 := some n2,
            p1_round_wins := w1, p2_round_wins := w2,
            round_history := rh, locked_winner_as_p1 := lck } with
        | none => some n1
        | some w => some w)
        = some (if w1 > w2 then n1 else if w2 > w1 then n2 else n1) := by
    intro rh w1 w2 lck
    simp only [match_winner, lt_self_iff_false, if_false]
    by_cases hw1 : w1 > w2
    · simp [hw1]
    · by_cases hw2 : w2 > w1 <;> simp [hw1, hw2]
  simp only [api_game_play_round, hact, hlt, hrps, hens1, hens2, not_true,
    if_false, ite_false, hp1, hp2, Option.getD_some, hn1, hn2, hround]
  by_cases ho1 : oc = 1
  · have hfa : (update_player (update_player st.leaderboard n1 addWin) n2
        addLoss).find? (fun r => r.name == n1) = some (addWin ps1) := by
      rw [find?_update_player_other _ n2 n1 addLoss (fun p => rfl) hdist,
        find?_update_player_self _ n1 addWin (fun p => rfl), hfind1]
      rfl
    have hfb : (update_player (update_player st.leaderboard n1 addWin) n2
        addLoss).find? (fun r => r.name == n2) = some (addLoss ps2) := by
      rw [find?_update_player_self _ n2 addLoss (fun p => rfl),
        find?_update_player_other _ n1 n2 addWin (fun p => rfl)
          (fun h => hdist h.symm), hfind2]
      rfl
    simp only [ho1, reduceIte]
    refine ⟨⟨_, rfl⟩, trivial, ?_, trivial, trivial, hwinner _ _ _ _,
      ⟨_, hq1 _ _ hfa, rfl⟩, ⟨_, hq2 _ _ hfb, rfl⟩⟩
    simp only [List.length_append, List.length_cons, List.length_nil, hist]
    omega
  · by_cases ho2 : oc = -1
    · have hfa : (update_player (update_player st.leaderboard n2 addWin) n1
          addLoss).find? (fun r => r.name == n1) = some (addLoss ps1) := by
        rw [find?_update_player_self _ n1 addLoss (fun p => rfl),
          find?_update_player_other _ n2 n1 addWin (fun p => rfl) hdist,
          hfind1]
        rfl
      have hfb : (update_player (update_player st.leaderboard n2 addWin) n1
          addLoss).find? (fun r => r.name == n2) = some (addWin ps2) := by
        rw [find?_update_player_other _ n1 n2 addLoss (fun p => rfl)
            (fun h => hdist h.symm),
          find?_update_player_self _ n2 addWin (fun p => rfl), hfind2]
        rfl
      simp only [ho1, ho2, Int.reduceNeg, Int.reduceEq, reduceIte]
      refine ⟨⟨_, rfl⟩, trivial, ?_, trivial, trivial, hwinner _ _ _ _,
        ⟨_, hq1 _ _ hfa, rfl⟩, ⟨_, hq2 _ _ hfb, rfl⟩⟩
      simp only [List.length_append, List.length_cons, List.length_nil, hist]
      omega
    · have hfa : (update_player (update_player st.leaderboard n1 addTie) n2
          addTie).find? (fun r => r.name == n1) = some (addTie ps1) := by
        rw [find?_update_player_other _ n2 n1 addTie (fun p => rfl) hdist,
          find?_update_player_self _ n1 addTie (fun p => rfl), hfind1]
        rfl
      have hfb : (update_player (update_player st.leaderboard n1 addTie) n2
          addTie).find? (fun r => r.name == n2) = some (addTie ps2) := by
        rw [find?_update_player_self _ n2 addTie (fun p => rfl),
          find?_update_player_other _ n1 n2 addTie (fun p => rfl)
            (fun h => hdist h.symm), hfind2]
        rfl
      simp only [ho1, ho2, Int.reduceNeg, Int.reduceEq, reduceIte]
      refine ⟨⟨_, rfl⟩, trivial, ?_, trivial, trivial, hwinner _ _ _ _,
        ⟨_, hq1 _ _ hfa, rfl⟩, ⟨_, hq2 _ _ hfb, rfl⟩⟩
      simp only [List.length_append, List.length_cons, List.length_nil, hist]
      omega


/-- Witness for C3: from nine played rounds (Alice 5, Bob 4), a tenth
round finalizes the match. -/
theorem play_round_finalizes_witness :
    sampleRound9State.cur.active = true ∧
    sampleRound9State.cur.round + 1 = sampleRound9State.cur.max_rounds ∧
    (api_game_play_round sampleRound9State "rock" "scissors").1.cur.active
      = false ∧
    (api_game_play_round sampleRound9State "rock" "scissors").1.cur.round_history.length
      = sampleRound9State.cur.max_rounds ∧
    (api_game_play_round sampleRound9State "rock" "scissors").1.cur.p2 = none ∧
    (api_game_play_round sampleRound9State "rock" "scissors").1.cur.locked_winner_as_p1
      = true := by
  have h := play_round_finalizes sampleRound9State "rock" "scissors" "Alice"
    "Bob"
    { name := "Alice", score := 5, wins := 5, losses := 4, ties := 0,
      games_played := 0 }
    { name := "Bob", score := 4, wins := 4, losses := 5, ties := 0,
      games_played := 0 }
    1 (by decide) (by decide) (by decide) (by decide) (by decide) (by decide)
    (by decide) (by decide) (by decide) (by decide) (by decide) (by decide)
    (by decide)
  exact ⟨by decide, by decide, h.2.1, h.2.2.1, h.2.2.2.1, h.2.2.2.2.1⟩

theorem pyWordsAux_ne_nil (l : List Char) :
    ∀ acc : List Char, acc ≠ [] → pyWordsAux l acc ≠ [] := by
  induction l with
  | nil =>
    intro acc hacc
    simp only [pyWordsAux]
    rw [if_neg hacc]
    exact List.cons_ne_nil _ _
  | cons c cs ih =>
    intro acc hacc
    simp only [pyWordsAux]
    by_cases hc : c.isWhitespace = true
    · rw [if_pos hc, if_neg hacc]
      exact List.cons_ne_nil _ _
    · rw [if_neg hc]
      exact ih _ (List.cons_ne_nil _ _)

theorem pyWordsAux_words_nonws (l : List Char) :
    ∀ acc : List Char, (∀ c ∈ acc, ¬ c.isWhitespace = true) →
    ∀ w ∈ pyWordsAux l acc, w ≠ [] ∧ ∀ c ∈ w, ¬ c.isWhitespace = true := by
  induction l with
  | nil =>
    intro acc hacc w hw
    simp only [pyWordsAux] at hw
    by_cases ha : acc = []
    · rw [if_pos ha] at hw
      exact absurd hw (List.not_mem_nil w)
    · rw [if_neg ha] at hw
      rcases List.mem_cons.mp hw with h | h
      · subst h
        refine ⟨fun h0 => ha (by simpa using congrArg List.reverse h0), ?_⟩
        intro c hc
        exact hacc c (List.mem_reverse.mp hc)
      · exact absurd h (List.not_mem_nil w)
  | cons c cs ih =>
    intro acc hacc w hw
    simp only [pyWordsAux] at hw
    by_cases hc : c.isWhitespace = true
    · rw [if_pos hc] at hw
      by_cases ha : acc = []
      · rw [if_pos ha] at hw
        exact ih [] (by intro x hx; exact absurd hx (List.not_mem_nil x)) w hw
      · rw [if_neg ha] at hw
        rcases List.mem_cons.mp hw with h | h
        · subst h
          refine ⟨fun h0 => ha (by simpa using congrArg List.reverse h0), ?_⟩
          intro d hd
          exact hacc d (List.mem_reverse.mp hd)
        · exact ih [] (by intro x hx; exact absurd hx (List.not_mem_nil x)) w h
    · rw [if_neg hc] at hw
      refine ih (c :: acc) ?_ w hw
      intro d hd
      rcases List.mem_cons.mp hd with h | h
      · subst h; exact hc
      · exact hacc d h

theorem joinWords_head (c : Char) (cs : List Char) (ws : List (List Char)) :
    ∃ t, joinWords ((c :: cs) :: ws) = c :: t := by
  cases ws with
  | nil => exact ⟨cs, rfl⟩
  | cons w ws => exact ⟨cs ++ ' ' :: joinWords (w :: ws), rfl⟩

theorem pyWords_words (l : List Char) :
    ∀ w ∈ pyWords l, w ≠ [] ∧ ∀ c ∈ w, ¬ c.isWhitespace = true :=
  pyWordsAux_words_nonws l [] (fun c hc => absurd hc (List.not_mem_nil c))

theorem joinWords_pyWords_ne_nil {l : List Char} (h : pyWords l ≠ []) :
    joinWords (pyWords l) ≠ [] := by
  rcases hw : pyWords l with _ | ⟨w, ws⟩
  · exact absurd hw h
  case cons =>
    have hprop := pyWords_words l w (by rw [hw]; exact List.mem_cons_self w ws)
    obtain ⟨hne, _⟩ := hprop
    cases w with
    | nil => exact absurd rfl hne
    | cons c cs =>
      obtain ⟨t, ht⟩ := joinWords_head c cs ws
      rw [ht]
      exact List.cons_ne_nil _ _

theorem normalize_name_data (x : String) :
    (normalize_name x).data = joinWords (pyWords x.data) := rfl

theorem normalize_name_ne_empty_iff (x : String) :
    normalize_name x ≠ "" ↔ joinWords (pyWords x.data) ≠ [] := by
  constructor
  · intro h hdata
    exact h (by rw [normalize_name]; rw [hdata])
  · intro h hx
    exact h (by rw [← normalize_name_data, hx])

theorem normalize_normalize_ne {x : String} (h : normalize_name x ≠ "") :
    normalize_name (normalize_name x) ≠ "" := by
  rw [normalize_name_ne_empty_iff] at h ⊢
  rw [normalize_name_data]
  cases hw : pyWords x.data with
  | nil => exact absurd (by rw [hw]; rfl) h
  | cons w ws =>
    have hprop := pyWords_words x.data w
      (by rw [hw]; exact List.mem_cons_self w ws)
    obtain ⟨hne, hnws⟩ := hprop
    cases w with
    | nil => exact absurd rfl hne
    | cons c cs =>
      obtain ⟨t, ht⟩ := joinWords_head c cs ws
      rw [ht]
      apply joinWords_pyWords_ne_nil
      have hcn : ¬ c.isWhitespace = true := hnws c (List.mem_cons_self c cs)
      simp only [pyWords, pyWordsAux]
      rw [if_neg hcn]
      exact pyWordsAux_ne_nil t [c] (List.cons_ne_nil c [])



theorem ensure_player_error_imp {lb : List PlayerStats} {name e : String}
    (h : ensure_player lb name = .error e) : normalize_name name = "" := by
  by_cases hn : normalize_name name = ""
  · exact hn
  · exfalso
    simp only [ensure_player] at h
    rw [if_neg hn] at h
    cases hfind : lb.find? (fun q => q.name == normalize_name name) <;>
      rw [hfind] at h <;> exact Except.noConfusion h

theorem ensure_player_lb_cases {lb : List PlayerStats} {name : String}
    {q : PlayerStats} {lb' : List PlayerStats}
    (h : ensure_player lb name = .ok (q, lb')) :
    lb' = lb ∨ lb' = lb ++ [freshStats (normalize_name name)] := by
  simp only [ensure_player] at h
  by_cases hn : normalize_name name = ""
  · rw [if_pos hn] at h
    exact Except.noConfusion h
  · rw [if_neg hn] at h
    cases hfind : lb.find? (fun r => r.name == normalize_name name) with
    | some p =>
      rw [hfind] at h
      left
      injection h with h'
      injection h' with h1 h2
      exact h2.symm
    | none =>
      rw [hfind] at h
      right
      injection h with h'
      injection h' with h1 h2
      exact h2.symm

theorem update_player_sw {lb : List PlayerStats} {n : String}
    {f : PlayerStats → PlayerStats}
    (hf : ∀ p : PlayerStats, p.score = p.wins → (f p).score = (f p).wins)
    (h : ∀ p ∈ lb, p.score = p.wins) :
    ∀ p ∈ update_player lb n f, p.score = p.wins := by
  intro p hp
  simp only [update_player] at hp
  obtain ⟨q, hq, hmap⟩ := List.mem_map.mp hp
  subst hmap
  by_cases hqn : (q.name == n) = true
  · rw [if_pos hqn]
    exact hf q (h q hq)
  · rw [if_neg hqn]
    exact h q hq

theorem ensure_player_sw {lb : List PlayerStats} {name : String}
    {q : PlayerStats} {lb' : List PlayerStats}
    (h : ∀ p ∈ lb, p.score = p.wins)
    (hens : ensure_player lb name = .ok (q, lb')) :
    ∀ p ∈ lb', p.score = p.wins := by
  rcases ensure_player_lb_cases hens with rfl | rfl
  · exact h
  · intro p hp
    rcases List.mem_append.mp hp with h1 | h1
    · exact h p h1
    · rcases List.mem_cons.mp h1 with rfl | h2
      · rfl
      · exact absurd h2 (List.not_mem_nil p)

theorem match_winner_cases (cm : MatchState) :
    match_winner cm = none ∨ match_winner cm = cm.p1 ∨ match_winner cm = cm.p2 := by
  unfold match_winner
  split_ifs <;> simp



theorem inv_init : Inv init_state := by
  simp [Inv, init_state]

theorem inv_register (st : AppState) (n : String) (h : Inv st) :
    Inv (api_register_player st n).1 := by
  obtain ⟨h1, h2, h3, h4, h5, h6⟩ := h
  simp only [api_register_player]
  cases hens : ensure_player st.leaderboard n with
  | error e => exact ⟨h1, h2, h3, h4, h5, h6⟩
  | ok pr =>
    obtain ⟨q, lb'⟩ := pr
    exact ⟨h1, h2, h3, h4, h5, ensure_player_sw h6 hens⟩

theorem inv_start (st : AppState) (a b : String) (h : Inv st) :
    Inv (api_game_start st a b).1 := by
  obtain ⟨h1, h2, h3, h4, h5, h6⟩ := h
  simp only [api_game_start]
  rcases hp : st.cur.p1 with _ | n
  · -- no previous p1: caller names used directly
    by_cases hfail : normalize_name a = "" ∨ normalize_name b = "" ∨
        normalize_name a = normalize_name b
    · rw [if_pos hfail]
      exact ⟨h1, h2, h3, h4, h5, h6⟩
    · rw [if_neg hfail]
      push_neg at hfail
      obtain ⟨ha, hb, hab⟩ := hfail
      cases hens1 : ensure_player st.leaderboard (normalize_name a) with
      | error e => exact ⟨h1, h2, h3, h4, h5, h6⟩
      | ok pr1 =>
        obtain ⟨q1, lb1⟩ := pr1
        dsimp only
        cases hens2 : ensure_player lb1 (normalize_name b) with
        | error e =>
          exact ⟨h1, h2, h3, h4, h5, ensure_player_sw h6 hens1⟩
        | ok pr2 =>
          obtain ⟨q2, lb2⟩ := pr2
          dsimp only
          refine ⟨rfl, by dsimp only; omega, ?_, ?_, fun _ => ⟨rfl, rfl⟩, ?_⟩
          · intro m hm
            injection hm with hm'
            subst hm'
            exact normalize_normalize_ne ha
          · intro m hm
            injection hm with hm'
            subst hm'
            exact normalize_normalize_ne hb
          · exact ensure_player_sw (ensure_player_sw h6 hens1) hens2
  · -- stored p1 present: possible carry-forward substitution
    dsimp only
    by_cases hcond : n ≠ "" ∧ st.cur.locked_winner_as_p1
    · rw [if_pos hcond]
      have hq1 : normalize_name n ≠ "" := h3 n hp
      by_cases hfail : n = "" ∨ normalize_name b = "" ∨ n = normalize_name b
      · rw [if_pos hfail]
        exact ⟨h1, h2, h3, h4, h5, h6⟩
      · rw [if_neg hfail]
        push_neg at hfail
        obtain ⟨ha, hb, hab⟩ := hfail
        cases hens1 : ensure_player st.leaderboard n with
        | error e => exact ⟨h1, h2, h3, h4, h5, h6⟩
        | ok pr1 =>
          obtain ⟨q1, lb1⟩ := pr1
          dsimp only
          cases hens2 : ensure_player lb1 (normalize_name b) with
          | error e =>
            exact ⟨h1, h2, h3, h4, h5, ensure_player_sw h6 hens1⟩
          | ok pr2 =>
            obtain ⟨q2, lb2⟩ := pr2
            dsimp only
            refine ⟨rfl, by dsimp only; omega, ?_, ?_, fun _ => ⟨rfl, rfl⟩, ?_⟩
            · intro m hm
              injection hm with hm'
              subst hm'
              exact hq1
            · intro m hm
              injection hm with hm'
              subst hm'
              exact normalize_normalize_ne hb
            · exact ensure_player_sw (ensure_player_sw h6 hens1) hens2
    · rw [if_neg hcond]
      by_cases hfail : normalize_name a = "" ∨ normalize_name b = "" ∨
          normalize_name a = normalize_name b
      · rw [if_pos hfail]
        exact ⟨h1, h2, h3, h4, h5, h6⟩
      · rw [if_neg hfail]
        push_neg at hfail
        obtain ⟨ha, hb, hab⟩ := hfail
        cases hens1 : ensure_player st.leaderboard (normalize_name a) with
        | error e => exact ⟨h1, h2, h3, h4, h5, h6⟩
        | ok pr1 =>
          obtain ⟨q1, lb1⟩ := pr1
          dsimp only
          cases hens2 : ensure_player lb1 (normalize_name b) with
          | error e =>
            exact ⟨h1, h2, h3, h4, h5, ensure_player_sw h6 hens1⟩
          | ok pr2 =>
            obtain ⟨q2, lb2⟩ := pr2
            dsimp only
            refine ⟨rfl, by dsimp only; omega, ?_, ?_, fun _ => ⟨rfl, rfl⟩, ?_⟩
            · intro m hm
              injection hm with hm'
              subst hm'
              exact normalize_normalize_ne ha
            · intro m hm
              injection hm with hm'
              subst hm'
              exact normalize_normalize_ne hb
            · exact ensure_player_sw (ensure_player_sw h6 hens1) hens2



theorem inv_play (st : AppState) (a b : String) (h : Inv st) :
    Inv (api_game_play_round st a b).1 := by
  obtain ⟨h1, h2, h3, h4, h5, h6⟩ := h
  by_cases hact : st.cur.active = true
  · by_cases hfin : st.cur.round ≥ st.cur.max_rounds
    · simp only [api_game_play_round, hact, hfin, not_true, if_false,
        ite_false, if_true, ite_true]
      exact ⟨h1, h2, h3, h4, h5, h6⟩
    · cases hr : rps_result a b with
      | error e =>
        simp only [api_game_play_round, hact, hfin, hr, not_true, if_false,
          ite_false, if_true, ite_true]
        exact ⟨h1, h2, h3, h4, h5, h6⟩
      | ok oc =>
        obtain ⟨hs1, hs2⟩ := h5 hact
        rw [Option.isSome_iff_exists] at hs1 hs2
        obtain ⟨n1, hp1⟩ := hs1
        obtain ⟨n2, hp2⟩ := hs2
        have hnn1 : normalize_name n1 ≠ "" := h3 n1 hp1
        have hnn2 : normalize_name n2 ≠ "" := h4 n2 hp2
        have hfwin : ∀ p : PlayerStats, p.score = p.wins →
            (addWin p).score = (addWin p).wins := fun p hp => by
          simp only [addWin]; omega
        have hfloss : ∀ p : PlayerStats, p.score = p.wins →
            (addLoss p).score = (addLoss p).wins := fun p hp => hp
        have hftie : ∀ p : PlayerStats, p.score = p.wins →
            (addTie p).score = (addTie p).wins := fun p hp => hp
        have hfgame : ∀ p : PlayerStats, p.score = p.wins →
            (addGame p).score = (addGame p).wins := fun p hp => hp
        cases hens1 : ensure_player st.leaderboard n1 with
        | error e => exact absurd (ensure_player_error_imp hens1) hnn1
        | ok pr1 =>
          obtain ⟨q1, lb1⟩ := pr1
          have h6b : ∀ p ∈ lb1, p.score = p.wins := ensure_player_sw h6 hens1
          cases hens2 : ensure_player lb1 n2 with
          | error e => exact absurd (ensure_player_error_imp hens2) hnn2
          | ok pr2 =>
            obtain ⟨q2, lb2⟩ := pr2
            have h6c : ∀ p ∈ lb2, p.score = p.wins :=
              ensure_player_sw h6b hens2
            simp only [api_game_play_round, hact, hfin, hr, hp1, hp2,
              Option.getD_some, hens1, hens2, not_true, if_false, ite_false,
              if_true, ite_true]
            by_cases ho1 : oc = 1
            · simp only [ho1, reduceIte]
              by_cases hfin2 : st.cur.round + 1 = st.cur.max_rounds
              · rw [if_pos hfin2]
                refine ⟨?_, ?_, ?_, ?_, ?_, ?_⟩
                · dsimp only
                  simp only [List.length_append, List.length_cons,
                    List.length_nil]
                  omega
                · dsimp only
                  omega
                · dsimp only
                  rcases match_winner_cases
                      { active := false, round := st.cur.round + 1,
                        max_rounds := st.cur.max_rounds, p1 := some n1,
                        p2 := some n2,
                        p1_round_wins := st.cur.p1_round_wins + 1,
                        p2_round_wins := st.cur.p2_round_wins,
                        round_history := st.cur.round_history ++
                          [{ round := st.cur.round + 1, p1_move := a,
                             p2_move := b, round_winner := some n1 }],
                        locked_winner_as_p1 := st.cur.locked_winner_as_p1 }
                    with hW | hW | hW <;> rw [hW] <;> dsimp only <;>
                    intro m hm <;> injection hm with hm' <;> subst hm'
                  · exact hnn1
                  · exact hnn1
                  · exact hnn2
                · intro m hm
                  exact Option.noConfusion hm
                · intro hx
                  exact absurd hx Bool.false_ne_true
                · exact update_player_sw hfgame (update_player_sw hfgame
                    (update_player_sw hfloss (update_player_sw hfwin h6c)))
              · rw [if_neg hfin2]
                refine ⟨?_, ?_, ?_, ?_, fun _ => ⟨rfl, rfl⟩, ?_⟩
                · dsimp only
                  simp only [List.length_append, List.length_cons,
                    List.length_nil]
                  omega
                · dsimp only
                  omega
                · intro m hm
                  injection hm with hm'
                  subst hm'
                  exact hnn1
                · intro m hm
                  injection hm with hm'
                  subst hm'
                  exact hnn2
                · exact update_player_sw hfloss (update_player_sw hfwin h6c)
            · by_cases ho2 : oc = -1
              · simp only [ho1, ho2, Int.reduceNeg, Int.reduceEq, reduceIte,
                  if_false, ite_false]
                by_cases hfin2 : st.cur.round + 1 = st.cur.max_rounds
                · rw [if_pos hfin2]
                  refine ⟨?_, ?_, ?_, ?_, ?_, ?_⟩
                  · dsimp only
                    simp only [List.length_append, List.length_cons,
                      List.length_nil]
                    omega
                  · dsimp only
                    omega
                  · dsimp only
                    rcases match_winner_cases
                        { active := false, round := st.cur.round + 1,
                          max_rounds := st.cur.max_rounds, p1 := some n1,
                          p2 := some n2,
                          p1_round_wins := st.cur.p1_round_wins,
                          p2_round_wins := st.cur.p2_round_wins + 1,
                          round_history := st.cur.round_history ++
                            [{ round := st.cur.round + 1, p1_move := a,
                               p2_move := b, round_winner := some n2 }],
                          locked_winner_as_p1 := st.cur.locked_winner_as_p1 }
                      with hW | hW | hW <;> rw [hW] <;> dsimp only <;>
                      intro m hm <;> injection hm with hm' <;> subst hm'
                    · exact hnn1
                    · exact hnn1
                    · exact hnn2
                  · intro m hm
                    exact Option.noConfusion hm
                  · intro hx
                    exact absurd hx Bool.false_ne_true
                  · exact update_player_sw hfgame (update_player_sw hfgame
                      (update_player_sw hfloss (update_player_sw hfwin h6c)))
                · rw [if_neg hfin2]
                  refine ⟨?_, ?_, ?_, ?_, fun _ => ⟨rfl, rfl⟩, ?_⟩
                  · dsimp only
                    simp only [List.length_append, List.length_cons,
                      List.length_nil]
                    omega
                  · dsimp only
                    omega
                  · intro m hm
                    injection hm with hm'
                    subst hm'
                    exact hnn1
                  · intro m hm
                    injection hm with hm'
                    subst hm'
                    exact hnn2
                  · exact update_player_sw hfloss (update_player_sw hfwin h6c)
              · simp only [ho1, ho2, Int.reduceNeg, Int.reduceEq, reduceIte,
                  if_false, ite_false]
                by_cases hfin2 : st.cur.round + 1 = st.cur.max_rounds
                · rw [if_pos hfin2]
                  refine ⟨?_, ?_, ?_, ?_, ?_, ?_⟩
                  · dsimp only
                    simp only [List.length_append, List.length_cons,
                      List.length_nil]
                    omega
                  · dsimp only
                    omega
                  · dsimp only
                    rcases match_winner_cases
                        { active := false, round := st.cur.round + 1,
                          max_rounds := st.cur.max_rounds, p1 := some n1,
                          p2 := some n2,
                          p1_round_wins := st.cur.p1_round_wins,
                          p2_round_wins := st.cur.p2_round_wins,
                          round_history := st.cur.round_history ++
                            [{ round := st.cur.round + 1, p1_move := a,
                               p2_move := b, round_winner := none }],
                          locked_winner_as_p1 := st.cur.locked_winner_as_p1 }
                      with hW | hW | hW <;> rw [hW] <;> dsimp only <;>
                      intro m hm <;> injection hm with hm' <;> subst hm'
                    · exact hnn1
                    · exact hnn1
                    · exact hnn2
                  · intro m hm
                    exact Option.noConfusion hm
                  · intro hx
                    exact absurd hx Bool.false_ne_true
                  · exact update_player_sw hfgame (update_player_sw hfgame
                      (update_player_sw hftie (update_player_sw hftie h6c)))
                · rw [if_neg hfin2]
                  refine ⟨?_, ?_, ?_, ?_, fun _ => ⟨rfl, rfl⟩, ?_⟩
                  · dsimp only
                    simp only [List.length_append, List.length_cons,
                      List.length_nil]
                    omega
                  · dsimp only
                    omega
                  · intro m hm
                    injection hm with hm'
                    subst hm'
                    exact hnn1
                  · intro m hm
                    injection hm with hm'
                    subst hm'
                    exact hnn2
                  · exact update_player_sw hftie (update_player_sw hftie h6c)
  · simp only [api_game_play_round, hact]
    simp only [Bool.not_eq_true] at hact
    simp only [hact, Bool.false_eq_true, not_false_eq_true, if_true, ite_true]
    exact ⟨h1, h2, h3, h4, h5, h6⟩

theorem reachable_inv {st : AppState} (h : Reachable st) : Inv st := by
  induction h with
  | init => exact inv_init
  | register st n h ih => exact inv_register st n ih
  | start st a b h ih => exact inv_start st a b ih
  | play st a b h ih => exact inv_play st a b ih

/-- C7: in every state reachable through the API (StartMatch resets the
fields, successful PlayRound calls advance them), `round` equals the
length of `round_history` and the two round-win counters sum to at most
`round` (tied rounds increment neither); moreover applying `StartMatch`
or `PlayRound` to such a state again yields a state satisfying the
invariant, and `Summary` is a pure projection that does not touch the
state at all. -/
theorem reachable_round_invariant (st : AppState) (h : Reachable st) :
    (st.cur.round = st.cur.round_history.length ∧
      st.cur.p1_round_wins + st.cur.p2_round_wins ≤ st.cur.round) ∧
    (∀ a b : String,
      (api_game_start st a b).1.cur.round
          = (api_game_start st a b).1.cur.round_history.length ∧
      (api_game_start st a b).1.cur.p1_round_wins
          + (api_game_start st a b).1.cur.p2_round_wins
          ≤ (api_game_start st a b).1.cur.round) ∧
    (∀ a b : String,
      (api_game_play_round st a b).1.cur.round
          = (api_game_play_round st a b).1.cur.round_history.length ∧
      (api_game_play_round st a b).1.cur.p1_round_wins
          + (api_game_play_round st a b).1.cur.p2_round_wins
          ≤ (api_game_play_round st a b).1.cur.round) := by
  obtain ⟨h1, h2, -⟩ := reachable_inv h
  refine ⟨⟨h1, h2⟩, ?_, ?_⟩
  · intro a b
    obtain ⟨g1, g2, -⟩ := reachable_inv (Reachable.start st a b h)
    exact ⟨g1, g2⟩
  · intro a b
    obtain ⟨g1, g2, -⟩ := reachable_inv (Reachable.play st a b h)
    exact ⟨g1, g2⟩

/-- Witness for C7 at the state reached by one StartMatch and one
PlayRound. -/
theorem reachable_round_invariant_witness :
    Reachable (api_game_play_round (api_game_start init_state "Alice" "Bob").1
      "rock" "scissors").1 ∧
    (api_game_play_round (api_game_start init_state "Alice" "Bob").1
        "rock" "scissors").1.cur.round
      = (api_game_play_round (api_game_start init_state "Alice" "Bob").1
        "rock" "scissors").1.cur.round_history.length ∧
    (api_game_play_round (api_game_start init_state "Alice" "Bob").1
        "rock" "scissors").1.cur.p1_round_wins
      + (api_game_play_round (api_game_start init_state "Alice" "Bob").1
        "rock" "scissors").1.cur.p2_round_wins
      ≤ (api_game_play_round (api_game_start init_state "Alice" "Bob").1
        "rock" "scissors").1.cur.round :=
  ⟨Reachable.play _ "rock" "scissors"
      (Reachable.start _ "Alice" "Bob" Reachable.init),
    (reachable_round_invariant _ (Reachable.play _ "rock" "scissors"
      (Reachable.start _ "Alice" "Bob" Reachable.init))).1⟩

/-- C10: in every reachable state every registry record has
`score = wins` — both start at zero and are only ever incremented
together on a round win — so the `wins` component of the `by_score`
composite key can never distinguish players whose scores are equal. -/
theorem reachable_score_eq_wins (st : AppState) (h : Reachable st) :
    (∀ p ∈ st.leaderboard, p.score = p.wins) ∧
    (∀ p ∈ st.leaderboard, ∀ q ∈ st.leaderboard,
      p.score = q.score → score_key p = score_key q) := by
  obtain ⟨-, -, -, -, -, h6⟩ := reachable_inv h
  refine ⟨h6, ?_⟩
  intro p hp q hq hs
  simp only [score_key]
  rw [← h6 p hp, ← h6 q hq, hs]

/-- Witness for C10 at the state with one registered player. -/
theorem reachable_score_eq_wins_witness :
    Reachable (api_register_player init_state "Alice").1 ∧
    freshStats "Alice" ∈ (api_register_player init_state "Alice").1.leaderboard ∧
    (freshStats "Alice").score = (freshStats "Alice").wins :=
  ⟨Reachable.register _ "Alice" Reachable.init,
    by decide,
    (reachable_score_eq_wins _
        (Reachable.register _ "Alice" Reachable.init)).1
      (freshStats "Alice") (by decide)⟩

end RPS
